import Mathlib

/-!
Verification of the GRN time-series simulator (`simulate_grn.py`).

The Python source is shallowly embedded over `ℚ`: NumPy float arrays become
functions `ℕ → ℚ` (or lists), the NumPy random generator becomes explicit
draw parameters, and the scipy `csr_matrix` duplicate-summing materialization
is modelled by `csrEntry`.  Gene indices follow `build_gene_names`:
prog = 0..3, lineage = 4..15, ligand = 16..35, receptor = 36..55,
target = 56..135, housekeeping = 136..185, other = 186..199 (200 genes).
`main` fixes `n_lineages = 6` and `lineage_tfs_per = 2`.
-/

namespace GRN

/-- Edge type tags, mirroring the string labels passed to `add_edge`. -/
inductive EdgeTag where
  | progSelf
  | progMutual
  | progToLineage
  | lineageSelf
  | lineagePartner
  | lineageInhibit
  | lineageRepressProg
  | lineageToTarget
  | lineageToLigand
  | progToReceptor
  | randomTag
  deriving DecidableEq, Repr

/-- A regulatory edge as recorded in `edge_list` by `add_edge`:
source gene, target gene (`dst`), weight, tag. -/
structure Edge where
  src : ℕ
  dst : ℕ
  weight : ℚ
  tag : EdgeTag
  deriving DecidableEq, Repr

/-- Gene indices 0..3, the group `prog`. -/
def progIdx : List ℕ := List.range' 0 4

/-- Gene indices 4..15, the group `lineage`. -/
def lineageIdx : List ℕ := List.range' 4 12

/-- Gene indices 16..35, the group `ligand`. -/
def ligandIdx : List ℕ := List.range' 16 20

/-- Gene indices 36..55, the group `receptor`. -/
def receptorIdx : List ℕ := List.range' 36 20

/-- Gene indices 56..135, the group `target`. -/
def targetIdx : List ℕ := List.range' 56 80

/-- The lineage-TF block of lineage `lin`
(`lineage[lin_block*lineage_tfs_per : (lin_block+1)*lineage_tfs_per]`
with `lineage_tfs_per = 2`): genes `4 + 2*lin` and `5 + 2*lin`. -/
def lineageBlock (lin : ℕ) : List ℕ := [4 + 2 * lin, 5 + 2 * lin]

/-- Section `i` of `np.array_split(xs, n)`: the first `xs.length % n`
sections get `xs.length / n + 1` elements, the rest `xs.length / n`. -/
def chunk (xs : List ℕ) (n i : ℕ) : List ℕ :=
  (xs.drop (i * (xs.length / n) + min i (xs.length % n))).take
    (if i < xs.length % n then xs.length / n + 1 else xs.length / n)

/-- Edges of the first `build_grn` loop: each program TF self-activates
(weight 0.2) and every ordered pair of distinct program TFs gets a
mutual-activation edge `add_edge(j, i, 0.35 + 0.1*rng.random())`; the draw
for the pair `(i, j)` is `mu i j`. -/
def progEdges (mu : ℕ → ℕ → ℚ) : List Edge :=
  progIdx.flatMap (fun i =>
    ⟨i, i, 1/5, .progSelf⟩ ::
      (progIdx.filter (fun j => j ≠ i)).map
        (fun j => ⟨j, i, 7/20 + (1/10) * mu i j, .progMutual⟩))

/-- Edges `add_edge(prog_idx, lin_idx, 0.15)` for every lineage TF and program TF. -/
def progToLineageEdges : List Edge :=
  lineageIdx.flatMap (fun lin =>
    progIdx.map (fun p => ⟨p, lin, 3/20, .progToLineage⟩))

/-- The per-lineage-block edges: self-activation 0.6, reciprocal partner
activation 0.4 (blocks have exactly 2 TFs), cross-lineage inhibition -0.5,
and repression of every program TF -0.3. -/
def lineageBlockEdges : List Edge :=
  (List.range 6).flatMap (fun blk =>
    ((lineageBlock blk).map (fun tf => Edge.mk tf tf (3/5) .lineageSelf)) ++
    [⟨4 + 2 * blk, 5 + 2 * blk, 2/5, .lineagePartner⟩,
     ⟨5 + 2 * blk, 4 + 2 * blk, 2/5, .lineagePartner⟩] ++
    ((lineageBlock blk).flatMap (fun tf =>
      ((List.range 6).filter (fun ob => ob ≠ blk)).flatMap (fun ob =>
        (lineageBlock ob).map (fun otf => Edge.mk otf tf (-(1/2)) .lineageInhibit)))) ++
    ((lineageBlock blk).flatMap (fun tf =>
      progIdx.map (fun p => Edge.mk tf p (-(3/10)) .lineageRepressProg))))

/-- The `lineage_to_target` edges: each lineage's TFs activate its
`np.array_split` target subset, weight 0.7. -/
def targetEdges : List Edge :=
  (List.range 6).flatMap (fun blk =>
    (lineageBlock blk).flatMap (fun tf =>
      (chunk targetIdx 6 blk).map (fun tgt => Edge.mk tf tgt (7/10) .lineageToTarget)))

/-- The `lineage_to_ligand` edges: each lineage's TFs activate its
`np.array_split` ligand subset, weight 0.6. -/
def ligandEdges : List Edge :=
  (List.range 6).flatMap (fun blk =>
    (lineageBlock blk).flatMap (fun tf =>
      (chunk ligandIdx 6 blk).map (fun lig => Edge.mk tf lig (3/5) .lineageToLigand)))

/-- The `prog_to_receptor` edges: every program TF activates every receptor, 0.2. -/
def progToReceptorEdges : List Edge :=
  progIdx.flatMap (fun p =>
    receptorIdx.map (fun rec => Edge.mk p rec (1/5) .progToReceptor))

/-- The 200-iteration random-edge loop: iteration draws are given as a list
of `(src, dst, weight)` triples; an iteration with `src = dst` hits the
`continue` and adds nothing. -/
def randomEdges (draws : List (ℕ × ℕ × ℚ)) : List Edge :=
  draws.filterMap (fun t =>
    if t.1 = t.2.1 then none else some ⟨t.1, t.2.1, t.2.2, .randomTag⟩)

/-- The full `edge_list` produced by `build_grn` (with `n_lineages = 6`,
`lineage_tfs_per = 2` as fixed in `main`), in construction order.
`mu` gives the `prog_mutual` uniform draws, `draws` the random-edge draws. -/
def buildGrnEdges (mu : ℕ → ℕ → ℚ) (draws : List (ℕ × ℕ × ℚ)) : List Edge :=
  progEdges mu ++ progToLineageEdges ++ lineageBlockEdges ++
    targetEdges ++ ligandEdges ++ progToReceptorEdges ++ randomEdges draws

/-- The COO triplet `add_edge` pushes for an edge: `(rows, cols, data)` with
`rows.append(dst); cols.append(src)`. -/
def toTriplet (e : Edge) : ℕ × ℕ × ℚ := (e.dst, e.src, e.weight)

/-- Entry `(r, c)` of `sp.csr_matrix((data, (rows, cols)))`: scipy sums the
data over every triplet at the same `(row, col)` position. -/
def csrEntry (ts : List (ℕ × ℕ × ℚ)) (r c : ℕ) : ℚ :=
  (ts.map (fun t => if t.1 = r ∧ t.2.1 = c then t.2.2 else 0)).sum

/-- Number of edges tagged `random` in an edge list. -/
def randomEdgeCount (es : List Edge) : ℕ :=
  (es.filter (fun e => e.tag = .randomTag)).length

/-- The Hill function, `hill(x, k, n) = max(x,0)**n / (k**n + max(x,0)**n + 1e-8)`.
The exponent is a natural number (the program's `hill_n`, default 2.0,
is used as an exact power here). -/
def hill (x k : ℚ) (n : ℕ) : ℚ :=
  (max x 0) ^ n / (k ^ n + (max x 0) ^ n + 1/100000000)

/-- Clipping, `np.clip(v, lo, hi) = min(max(v, lo), hi)`. -/
def clipQ (v lo hi : ℚ) : ℚ := min (max v lo) hi

/-- The per-sample morphogen vector built in `main`: starting from zeros,
for each `lin_idx` in `0..5` the entries at that lineage's TF block are
set to `morphogen_scale * lineage_bias[lin_idx]` (`w lin_idx` is the
Dirichlet component for lineage `lin_idx`). -/
def buildMorphogen (scale : ℚ) (w : ℕ → ℚ) : ℕ → ℚ :=
  (List.range 6).foldl
    (fun m lin => fun g => if g ∈ lineageBlock lin then scale * w lin else m g)
    (fun _ => 0)

/-- The product `h @ W` at `(cell-row h, gene g)`, where `W = grn["W"].transpose()`:
the regulatory input `sum_s h s * W_raw[g, s]` with `W_raw` the stored
(destination, source)-indexed adjacency over the 200 genes. -/
def regInput (es : List Edge) (h : ℕ → ℚ) (g : ℕ) : ℚ :=
  ∑ s ∈ Finset.range 200, h s * csrEntry (es.map toTriplet) g s

/-- The inputs of `simulate_sample` together with its random draws:
`initDraw c g` is the per-group Gaussian initial draw, `noiseDraw t c g`
the step-`t` value of `rng.normal(0, noise, ...) * sqrt(dt)`, and
`neighborDraw c` the raw `rng.choice(n_cells - 1, size=k, replace=False)`
result for cell `c`. -/
structure SimParams where
  nCells : ℕ
  edges : List Edge
  bias : ℕ → ℚ
  decay : ℕ → ℚ
  effects : ℕ → ℕ → ℚ
  morphogen : ℕ → ℚ
  dt : ℚ
  xmax : ℚ
  hillK : ℚ
  hillN : ℕ
  neighborRandom : Bool
  neighborK : ℤ
  neighborMix : ℚ
  stepsPerTp : ℕ
  nTimepoints : ℕ
  initDraw : ℕ → ℕ → ℚ
  noiseDraw : ℕ → ℕ → ℕ → ℚ
  neighborDraw : ℕ → List ℕ

/-- The clipped initial latent state `x = np.clip(draws, 0, x_max)`. -/
def initState (p : SimParams) : ℕ → ℕ → ℚ :=
  fun c g => clipQ (p.initDraw c g) 0 p.xmax

/-- The `neighbor_idx` array: `None` unless neighbor mode is `"random"`,
`neighbor_k > 0` and `n_cells > 1`; otherwise each cell's raw choices over
`n_cells - 1` values are shifted by `np.where(choices >= i, choices + 1,
choices)` to skip the cell itself. -/
def neighborIdx (p : SimParams) : Option (ℕ → List ℕ) :=
  if p.neighborRandom = true ∧ 0 < p.neighborK ∧ 1 < p.nCells then
    some (fun c => (p.neighborDraw c).map (fun j => if c ≤ j then j + 1 else j))
  else none

/-- The mean `np.maximum(x[:, lig_idx], 0.0).mean(axis=0)` at ligand position `j`
(gene `16 + j`): the population mean over all cells. -/
def globalLig (p : SimParams) (x : ℕ → ℕ → ℚ) (j : ℕ) : ℚ :=
  (∑ c ∈ Finset.range p.nCells, max (x c (16 + j)) 0) / p.nCells

/-- The `ligand_mean` value for cell `c`, pair position `j`: the global mean when
`neighbor_idx is None`, else the convex mix of the neighbor-local mean and
the global mean. -/
def ligandAvail (p : SimParams) (x : ℕ → ℕ → ℚ) (c j : ℕ) : ℚ :=
  match neighborIdx p with
  | none => globalLig p x j
  | some nb =>
      p.neighborMix * ((((nb c).map (fun i => max (x i (16 + j)) 0)).sum) / (nb c).length)
        + (1 - p.neighborMix) * globalLig p x j

/-- The activation `receptor_act = hill(x[:, rec_idx], hill_k, hill_n)` at pair position
`j` (receptor gene `36 + j`). -/
def receptorAct (p : SimParams) (x : ℕ → ℕ → ℚ) (c j : ℕ) : ℚ :=
  hill (x c (36 + j)) p.hillK p.hillN

/-- The pair signal `receptor_act * ligand_mean` (positional pair correspondence). -/
def signalPair (p : SimParams) (x : ℕ → ℕ → ℚ) (c j : ℕ) : ℚ :=
  receptorAct p x c j * ligandAvail p x c j

/-- The term `g_signal = signal.dot(ligand_effects.T)` at `(cell c, gene g)`:
`sum_j signal[c, j] * B[g, j]` over the 20 ligand–receptor pairs. -/
def gSignal (p : SimParams) (x : ℕ → ℕ → ℚ) (c g : ℕ) : ℚ :=
  ∑ j ∈ Finset.range 20, signalPair p x c j * p.effects g j

/-- The drift `deriv = (h @ W + bias - decay * x) + g_signal + morphogen`. -/
def derivQ (p : SimParams) (x : ℕ → ℕ → ℚ) (c g : ℕ) : ℚ :=
  regInput p.edges (fun s => hill (x c s) p.hillK p.hillN) g
    + p.bias g - p.decay g * x c g + gSignal p x c g + p.morphogen g

/-- One Euler–Maruyama step:
`x ← np.clip(x + dt * deriv + noise_term, 0, x_max)`. -/
def eulerStep (p : SimParams) (t : ℕ) (x : ℕ → ℕ → ℚ) : ℕ → ℕ → ℚ :=
  fun c g => clipQ (x c g + p.dt * derivQ p x c g + p.noiseDraw t c g) 0 p.xmax

/-- The latent state after `t` steps of the loop. -/
def simState (p : SimParams) : ℕ → (ℕ → ℕ → ℚ)
  | 0 => initState p
  | t + 1 => eulerStep p t (simState p t)

/-- The recorded snapshot at timepoint `tp`: timepoint 0 is the initial
state; timepoint `tp ≥ 1` is the state after `tp * steps_per_tp` steps
(recorded when `(step + 1) % steps_per_tp == 0`); if `steps_per_tp = 0`
the loop body never runs and rows `tp ≥ 1` keep the `np.zeros` fill. -/
def snapshot (p : SimParams) (tp : ℕ) : ℕ → ℕ → ℚ :=
  if tp = 0 then simState p 0
  else if 0 < p.stepsPerTp then simState p (tp * p.stepsPerTp)
  else fun _ _ => 0

/-- Python `int()`: truncation toward zero. -/
def truncInt (q : ℚ) : ℤ := if 0 ≤ q then ⌊q⌋ else ⌈q⌉

/-- The step count `steps_per_tp = int(args.hours_per_timepoint / args.dt)`. -/
def stepsPerTp (h d : ℚ) : ℤ := truncInt (h / d)

/-- The check in `main` raises `ValueError` exactly when
`abs(steps_per_tp * dt - hours_per_timepoint) > 1e-6`. -/
def configRejects (h d : ℚ) : Prop :=
  |(stepsPerTp h d : ℚ) * d - h| > 1/1000000

instance (h d : ℚ) : Decidable (configRejects h d) := by
  unfold configRejects; infer_instance

/-- The per-lineage score of one snapshot row `x`:
`np.mean(x[:, tf_indices])` over the slice
`lineage_indices[lin*per : (lin+1)*per]`. -/
def lineageScore (x : ℕ → ℚ) (li : List ℕ) (per lin : ℕ) : ℚ :=
  let tfs := (li.drop (lin * per)).take per
  ((tfs.map x).sum) / tfs.length

/-- The row maximum `scores.max(axis=1)`: the maximum of `f` over `0..n-1`
(defined as a fold from `f 0`; `assign_lineage` is only used with
`n_lineages ≥ 1`). -/
def npMax (f : ℕ → ℚ) : ℕ → ℚ
  | 0 => f 0
  | m + 1 => max (npMax f m) (f m)

/-- The `np.argmax` over `0..n-1`: the first index attaining the maximum
(the fold replaces the current best only on a strictly larger value). -/
def argmaxIdx (f : ℕ → ℚ) : ℕ → ℕ
  | 0 => 0
  | m + 1 => if f (argmaxIdx f m) < f m then m else argmaxIdx f m

/-- The `lineage_id` of one row in `assign_lineage`:
`argmax(scores) + 1`, overwritten with 0 when `max_scores < threshold`. -/
def assignLabel (x : ℕ → ℚ) (li : List ℕ) (nLin per : ℕ) (thr : ℚ) : ℕ :=
  let f := fun lin => lineageScore x li per lin
  if npMax f nLin < thr then 0 else argmaxIdx f nLin + 1

/-! ### Helper lemmas -/

lemma clipQ_mem (v hi : ℚ) (h : 0 ≤ hi) : 0 ≤ clipQ v 0 hi ∧ clipQ v 0 hi ≤ hi :=
  ⟨le_min (le_max_right v 0) h, min_le_right _ _⟩

lemma csrEntry_eq (es : List Edge) (r c : ℕ) :
    csrEntry (es.map toTriplet) r c =
      ((es.filter (fun e => e.src = c ∧ e.dst = r)).map Edge.weight).sum := by
  induction es with
  | nil => simp [csrEntry]
  | cons e tl ih =>
      by_cases h1 : e.src = c <;> by_cases h2 : e.dst = r <;>
        simp [csrEntry, toTriplet, h1, h2, List.filter_cons] at ih ⊢ <;>
        rw [ih]

lemma regInput_cons (e : Edge) (tl : List Edge) (h : ℕ → ℚ) (g : ℕ)
    (hsrc : e.src < 200) :
    regInput (e :: tl) h g =
      (if e.dst = g then h e.src * e.weight else 0) + regInput tl h g := by
  unfold regInput
  have hsplit : ∀ s, csrEntry ((e :: tl).map toTriplet) g s
      = (if e.dst = g ∧ e.src = s then e.weight else 0)
        + csrEntry (tl.map toTriplet) g s := by
    intro s; simp [csrEntry, toTriplet]
  simp only [hsplit, mul_add]
  rw [Finset.sum_add_distrib]
  congr 1
  by_cases hdst : e.dst = g
  · simp only [hdst, true_and, mul_ite, mul_zero, if_pos]
    rw [Finset.sum_ite_eq]
    simp [Finset.mem_range.mpr hsrc]
  · simp [hdst]

lemma regInput_eq (es : List Edge) (h : ℕ → ℚ) (g : ℕ)
    (hsrc : ∀ e ∈ es, e.src < 200) :
    regInput es h g =
      ((es.filter (fun e => e.dst = g)).map (fun e => h e.src * e.weight)).sum := by
  induction es with
  | nil => simp [regInput, csrEntry]
  | cons e tl ih =>
      rw [regInput_cons e tl h g (hsrc e (by simp))]
      rw [ih (fun e2 he2 => hsrc e2 (by simp [he2]))]
      by_cases hdst : e.dst = g <;> simp [List.filter_cons, hdst]

lemma progEdges_src_lt (mu : ℕ → ℕ → ℚ) : ∀ e ∈ progEdges mu, e.src < 200 := by
  intro e he
  simp only [progEdges, progIdx, List.mem_flatMap, List.mem_cons, List.mem_map,
    List.mem_filter, List.mem_range'_1] at he
  obtain ⟨i, hi, h⟩ := he
  rcases h with rfl | ⟨j, hj, rfl⟩ <;> simp <;> omega

lemma progToLineageEdges_src_lt : ∀ e ∈ progToLineageEdges, e.src < 200 := by
  intro e he
  simp only [progToLineageEdges, lineageIdx, progIdx, List.mem_flatMap,
    List.mem_map, List.mem_range'_1] at he
  obtain ⟨lin, hlin, p, hp, rfl⟩ := he
  simp; omega

lemma lineageBlockEdges_src_lt : ∀ e ∈ lineageBlockEdges, e.src < 200 := by
  intro e he
  simp only [lineageBlockEdges, lineageBlock, progIdx, List.mem_flatMap,
    List.mem_append, List.mem_map, List.mem_cons, List.mem_filter,
    List.mem_range, List.mem_range'_1, List.not_mem_nil, or_false] at he
  obtain ⟨blk, hblk, h⟩ := he
  rcases h with ((⟨tf, htf, rfl⟩ | rfl | rfl) | ⟨tf, htf, ob, hob, otf, hotf, rfl⟩) |
    ⟨tf, htf, p, hp, rfl⟩ <;> simp <;> omega

lemma targetEdges_src_lt : ∀ e ∈ targetEdges, e.src < 200 := by
  intro e he
  simp only [targetEdges, lineageBlock, List.mem_flatMap, List.mem_map,
    List.mem_cons, List.mem_range, List.not_mem_nil, or_false] at he
  obtain ⟨blk, hblk, tf, htf, tgt, htgt, rfl⟩ := he
  rcases htf with rfl | rfl <;> simp <;> omega

lemma ligandEdges_src_lt : ∀ e ∈ ligandEdges, e.src < 200 := by
  intro e he
  simp only [ligandEdges, lineageBlock, List.mem_flatMap, List.mem_map,
    List.mem_cons, List.mem_range, List.not_mem_nil, or_false] at he
  obtain ⟨blk, hblk, tf, htf, lig, hlig, rfl⟩ := he
  rcases htf with rfl | rfl <;> simp <;> omega

lemma progToReceptorEdges_src_lt : ∀ e ∈ progToReceptorEdges, e.src < 200 := by
  intro e he
  simp only [progToReceptorEdges, progIdx, receptorIdx, List.mem_flatMap,
    List.mem_map, List.mem_range'_1] at he
  obtain ⟨p, hp, rec, hrec, rfl⟩ := he
  simp; omega

lemma randomEdges_src_lt (draws : List (ℕ × ℕ × ℚ))
    (hd : ∀ t ∈ draws, t.1 < 200) : ∀ e ∈ randomEdges draws, e.src < 200 := by
  intro e he
  simp only [randomEdges, List.mem_filterMap] at he
  obtain ⟨t, ht, hft⟩ := he
  by_cases hc : t.1 = t.2.1
  · simp [hc] at hft
  · rw [if_neg hc] at hft
    injection hft with h
    subst h
    simpa using hd t ht

lemma buildGrnEdges_src_lt (mu : ℕ → ℕ → ℚ) (draws : List (ℕ × ℕ × ℚ))
    (hd : ∀ t ∈ draws, t.1 < 200) :
    ∀ e ∈ buildGrnEdges mu draws, e.src < 200 := by
  intro e he
  simp only [buildGrnEdges, List.mem_append] at he
  rcases he with ((((((h | h) | h) | h) | h) | h) | h)
  · exact progEdges_src_lt mu e h
  · exact progToLineageEdges_src_lt e h
  · exact lineageBlockEdges_src_lt e h
  · exact targetEdges_src_lt e h
  · exact ligandEdges_src_lt e h
  · exact progToReceptorEdges_src_lt e h
  · exact randomEdges_src_lt draws hd e h

lemma randomEdgeCount_append (a b : List Edge) :
    randomEdgeCount (a ++ b) = randomEdgeCount a + randomEdgeCount b := by
  simp [randomEdgeCount, List.filter_append]

lemma randomEdgeCount_eq_zero (a : List Edge)
    (h : ∀ e ∈ a, e.tag ≠ EdgeTag.randomTag) : randomEdgeCount a = 0 := by
  unfold randomEdgeCount
  rw [List.filter_eq_nil_iff.mpr]
  · rfl
  · intro e he
    simpa using h e he

lemma progEdges_no_random (mu : ℕ → ℕ → ℚ) :
    ∀ e ∈ progEdges mu, e.tag ≠ EdgeTag.randomTag := by
  intro e he
  simp only [progEdges, List.mem_flatMap, List.mem_cons, List.mem_map,
    List.mem_filter] at he
  obtain ⟨i, _, h⟩ := he
  rcases h with rfl | ⟨j, _, rfl⟩ <;> simp

lemma progToLineageEdges_no_random :
    ∀ e ∈ progToLineageEdges, e.tag ≠ EdgeTag.randomTag := by
  intro e he
  simp only [progToLineageEdges, List.mem_flatMap, List.mem_map] at he
  obtain ⟨lin, _, p, _, rfl⟩ := he
  simp

lemma lineageBlockEdges_no_random :
    ∀ e ∈ lineageBlockEdges, e.tag ≠ EdgeTag.randomTag := by
  intro e he
  simp only [lineageBlockEdges, List.mem_flatMap, List.mem_append, List.mem_map,
    List.mem_cons, List.mem_filter, List.not_mem_nil, or_false] at he
  obtain ⟨blk, _, h⟩ := he
  rcases h with ((⟨tf, _, rfl⟩ | rfl | rfl) | ⟨tf, _, ob, _, otf, _, rfl⟩) |
    ⟨tf, _, p, _, rfl⟩ <;> simp

lemma targetEdges_no_random :
    ∀ e ∈ targetEdges, e.tag ≠ EdgeTag.randomTag := by
  intro e he
  simp only [targetEdges, List.mem_flatMap, List.mem_map] at he
  obtain ⟨blk, _, tf, _, tgt, _, rfl⟩ := he
  simp

lemma ligandEdges_no_random :
    ∀ e ∈ ligandEdges, e.tag ≠ EdgeTag.randomTag := by
  intro e he
  simp only [ligandEdges, List.mem_flatMap, List.mem_map] at he
  obtain ⟨blk, _, tf, _, lig, _, rfl⟩ := he
  simp

lemma progToReceptorEdges_no_random :
    ∀ e ∈ progToReceptorEdges, e.tag ≠ EdgeTag.randomTag := by
  intro e he
  simp only [progToReceptorEdges, List.mem_flatMap, List.mem_map] at he
  obtain ⟨p, _, rec, _, rfl⟩ := he
  simp

lemma randomEdges_count (draws : List (ℕ × ℕ × ℚ)) :
    randomEdgeCount (randomEdges draws)
      = (draws.filter (fun t => t.1 ≠ t.2.1)).length := by
  induction draws with
  | nil => rfl
  | cons t tl ih =>
      by_cases h : t.1 = t.2.1
      · simpa [randomEdges, randomEdgeCount, List.filterMap_cons, h,
          List.filter_cons] using ih
      · simp only [randomEdges, randomEdgeCount, List.filterMap_cons, if_neg h,
          List.filter_cons] at ih ⊢
        simp [h, ih]

lemma buildGrn_randomEdgeCount (mu : ℕ → ℕ → ℚ) (draws : List (ℕ × ℕ × ℚ)) :
    randomEdgeCount (buildGrnEdges mu draws)
      = (draws.filter (fun t => t.1 ≠ t.2.1)).length := by
  unfold buildGrnEdges
  rw [randomEdgeCount_append, randomEdgeCount_append, randomEdgeCount_append,
    randomEdgeCount_append, randomEdgeCount_append, randomEdgeCount_append]
  rw [randomEdgeCount_eq_zero _ (progEdges_no_random mu),
    randomEdgeCount_eq_zero _ progToLineageEdges_no_random,
    randomEdgeCount_eq_zero _ lineageBlockEdges_no_random,
    randomEdgeCount_eq_zero _ targetEdges_no_random,
    randomEdgeCount_eq_zero _ ligandEdges_no_random,
    randomEdgeCount_eq_zero _ progToReceptorEdges_no_random,
    randomEdges_count draws]
  omega

/-! ### Lemmas about `argmaxIdx` and `npMax` -/

lemma argmaxIdx_lt (f : ℕ → ℚ) (n : ℕ) (h : 0 < n) : argmaxIdx f n < n := by
  induction n with
  | zero => omega
  | succ m ih =>
      simp only [argmaxIdx]
      split_ifs
      · omega
      · rcases Nat.eq_zero_or_pos m with hm | hm
        · subst hm; simp [argmaxIdx]
        · exact (ih hm).trans (by omega)

lemma le_f_argmaxIdx (f : ℕ → ℚ) (n : ℕ) : ∀ j < n, f j ≤ f (argmaxIdx f n) := by
  induction n with
  | zero => intro j hj; omega
  | succ m ih =>
      intro j hj
      simp only [argmaxIdx]
      split_ifs with hlt
      · rcases Nat.lt_succ_iff_lt_or_eq.mp hj with hj2 | rfl
        · exact (ih j hj2).trans hlt.le
        · exact le_refl _
      · rcases Nat.lt_succ_iff_lt_or_eq.mp hj with hj2 | rfl
        · exact ih j hj2
        · exact not_lt.mp hlt

lemma lt_f_argmaxIdx (f : ℕ → ℚ) (n : ℕ) :
    ∀ j < argmaxIdx f n, f j < f (argmaxIdx f n) := by
  induction n with
  | zero => intro j hj; simp [argmaxIdx] at hj
  | succ m ih =>
      intro j hj
      by_cases hlt : f (argmaxIdx f m) < f m <;>
        simp only [argmaxIdx, if_pos, if_neg, hlt, ite_true, ite_false] at hj ⊢
      · exact lt_of_le_of_lt (le_f_argmaxIdx f m j hj) hlt
      · exact ih j hj

lemma f_argmaxIdx_eq_npMax (f : ℕ → ℚ) (n : ℕ) (h : 0 < n) :
    f (argmaxIdx f n) = npMax f n := by
  induction n with
  | zero => omega
  | succ m ih =>
      rcases Nat.eq_zero_or_pos m with hm | hm
      · subst hm
        simp [argmaxIdx, npMax]
      · simp only [argmaxIdx, npMax]
        by_cases hlt : f (argmaxIdx f m) < f m
        · rw [if_pos hlt, ← ih hm, max_eq_right hlt.le]
        · rw [if_neg hlt, ← ih hm, max_eq_left (not_lt.mp hlt)]

lemma simState_mem (p : SimParams) (h : 0 ≤ p.xmax) :
    ∀ t c g, 0 ≤ simState p t c g ∧ simState p t c g ≤ p.xmax := by
  intro t
  induction t with
  | zero => intro c g; exact clipQ_mem _ _ h
  | succ t _ => intro c g; exact clipQ_mem _ _ h

/-! ### Claim theorems -/

/-- Claim C1, counterexample. The claim says the morphogen vector is nonzero
only on the TF block of one single lineage.  With the realizable Dirichlet
draw `(1/6, ..., 1/6)` and the default `morphogen_scale = 0.6`, `main`
produces a morphogen that is nonzero on the TF blocks of all six lineages,
so no single lineage contains all nonzero entries. -/
theorem morphogen_single_lineage_false :
    ¬ ∃ lin, lin < 6 ∧ ∀ g, buildMorphogen (3/5) (fun _ => 1/6) g ≠ 0 →
      g ∈ lineageBlock lin := by
  rintro ⟨lin, -, hall⟩
  have h4 := hall 4 (by norm_num [buildMorphogen, List.range_succ, lineageBlock])
  have h14 := hall 14 (by norm_num [buildMorphogen, List.range_succ, lineageBlock])
  simp only [lineageBlock, List.mem_cons, List.not_mem_nil, or_false] at h4 h14
  omega

/-- Claim C1, amended. The morphogen vector built in `main` is zero outside
the lineage-TF genes 4..15, and on the TF block of lineage `lin` it is
constantly `morphogen_scale * lineage_bias[lin]` — i.e. it is supported on
the TF blocks of *all* lineages (weighted by the Dirichlet draw), not on a
single lineage's block. -/
theorem morphogen_support (scale : ℚ) (w : ℕ → ℚ) :
    (∀ g, g < 4 ∨ 16 ≤ g → buildMorphogen scale w g = 0) ∧
    (∀ lin, lin < 6 → ∀ g ∈ lineageBlock lin,
      buildMorphogen scale w g = scale * w lin) := by
  have h6 : List.range 6 = [0, 1, 2, 3, 4, 5] := rfl
  constructor
  · intro g hg
    simp only [buildMorphogen, h6, List.foldl_cons, List.foldl_nil, lineageBlock,
      List.mem_cons, List.not_mem_nil, or_false]
    split_ifs <;> first | rfl | (exfalso; omega)
  · intro lin hlin g hgmem
    interval_cases lin <;>
      simp only [lineageBlock, List.mem_cons, List.not_mem_nil, or_false] at hgmem <;>
      rcases hgmem with rfl | rfl <;> rfl

/-- Claim C1, amended, witness. Instantiation at scale 3/5, the uniform
Dirichlet vector, gene 20 (outside all TF blocks) and lineage 3, gene 10. -/
theorem morphogen_support_witness :
    buildMorphogen (3/5) (fun _ => 1/6) 20 = 0 ∧
      buildMorphogen (3/5) (fun _ => 1/6) 10 = (3/5) * (fun _ => (1/6 : ℚ)) 3 :=
  ⟨(morphogen_support (3/5) (fun _ => 1/6)).1 20 (Or.inr (by norm_num)),
    (morphogen_support (3/5) (fun _ => 1/6)).2 3 (by norm_num) 10
      (by simp [lineageBlock])⟩

set_option maxRecDepth 4000 in
/-- Claim C2, counterexample. The random-edge loop runs 200 iterations but
`continue`s (adding nothing) whenever the two index draws collide, so a
random-source state with one colliding draw yields only 199 edges tagged
`random`, not 200. -/
theorem random_edge_count_200_false :
    ((0, 0, (0:ℚ)) :: List.replicate 199 (0, 1, (0:ℚ))).length = 200 ∧
      randomEdgeCount (buildGrnEdges (fun _ _ => 0)
        ((0, 0, (0:ℚ)) :: List.replicate 199 (0, 1, (0:ℚ)))) ≠ 200 := by
  constructor
  · rw [List.length_cons, List.length_replicate]
  · rw [buildGrn_randomEdgeCount]
    decide

/-- Claim C2, amended. For every random-source state, the construction makes
exactly 200 random-edge attempts; the number of edges tagged `random`
equals the number of attempts whose two index draws differ, and is
therefore at most 200 (with equality exactly when no attempt collides). -/
theorem random_edge_count (mu : ℕ → ℕ → ℚ) (draws : List (ℕ × ℕ × ℚ))
    (hlen : draws.length = 200) :
    randomEdgeCount (buildGrnEdges mu draws)
        = (draws.filter (fun t => t.1 ≠ t.2.1)).length ∧
      randomEdgeCount (buildGrnEdges mu draws) ≤ 200 := by
  refine ⟨buildGrn_randomEdgeCount mu draws, ?_⟩
  rw [buildGrn_randomEdgeCount mu draws, ← hlen]
  exact List.length_filter_le _ _

/-- Claim C2, amended, witness. 200 collision-free draws give 200 random
edges. -/
theorem random_edge_count_witness :
    (List.replicate 200 (0, 1, (0:ℚ))).length = 200 ∧
      (randomEdgeCount (buildGrnEdges (fun _ _ => 0)
          (List.replicate 200 (0, 1, (0:ℚ))))
          = ((List.replicate 200 (0, 1, (0:ℚ))).filter
              (fun t => t.1 ≠ t.2.1)).length ∧
        randomEdgeCount (buildGrnEdges (fun _ _ => 0)
          (List.replicate 200 (0, 1, (0:ℚ)))) ≤ 200) :=
  ⟨List.length_replicate 200 _, random_edge_count (fun _ _ => 0) _ (List.length_replicate 200 _)⟩

/-- Claim C3. For every simulation input with `x_max ≥ 0`, every entry of the
returned snapshot tensor — every cell, every timepoint (including the
recorded initial state at timepoint 0), every gene — lies in `[0, x_max]`:
the initial state and each Euler–Maruyama step are clipped to that range. -/
theorem latent_snapshot_bounds (p : SimParams) (h : 0 ≤ p.xmax) (c tp g : ℕ) :
    0 ≤ snapshot p tp c g ∧ snapshot p tp c g ≤ p.xmax := by
  unfold snapshot
  split_ifs
  · exact simState_mem p h 0 c g
  · exact simState_mem p h _ c g
  · exact ⟨le_refl 0, h⟩

/-- A concrete, fully-specified simulation input used to witness C3. -/
def sampleSim : SimParams where
  nCells := 1
  edges := []
  bias := fun _ => 0
  decay := fun _ => 0
  effects := fun _ _ => 0
  morphogen := fun _ => 0
  dt := 1
  xmax := 6
  hillK := 1
  hillN := 2
  neighborRandom := false
  neighborK := 10
  neighborMix := 1
  stepsPerTp := 2
  nTimepoints := 12
  initDraw := fun _ _ => 1
  noiseDraw := fun _ _ _ => 0
  neighborDraw := fun _ => []

/-- Claim C3, witness. The bound at cell 0, timepoint 1, gene 0 of a concrete
simulation with `x_max = 6`. -/
theorem latent_snapshot_bounds_witness :
    (0:ℚ) ≤ sampleSim.xmax ∧
      (0 ≤ snapshot sampleSim 1 0 0 ∧ snapshot sampleSim 1 0 0 ≤ sampleSim.xmax) :=
  ⟨by norm_num [sampleSim], latent_snapshot_bounds sampleSim (by norm_num [sampleSim]) 0 1 0⟩

/-- Claim C4. For every random-source state and every gene pair `(s, t)`, the
materialized adjacency entry (row `t` = destination, column `s` = source of
the scipy CSR matrix, which sums duplicate coordinates) equals the sum of
the weights of *all* edges added from `s` to `t` — duplicates accumulate
and are never overwritten by the last edge alone. -/
theorem adjacency_accumulates_duplicates (mu : ℕ → ℕ → ℚ)
    (draws : List (ℕ × ℕ × ℚ)) (s t : ℕ) :
    csrEntry ((buildGrnEdges mu draws).map toTriplet) t s =
      (((buildGrnEdges mu draws).filter
        (fun e => e.src = s ∧ e.dst = t)).map Edge.weight).sum :=
  csrEntry_eq _ _ _

/-- Claim C5. The regulatory input computed by the per-step update (`h @ W`
with `W` the transpose of the stored (destination, source)-indexed
adjacency) equals, for every gene `g`, the sum over all constructed edges
`s → g` of `h[s] * weight` — the update realizes the source-regulates-
target semantics of the construction rules. -/
theorem regulatory_input_source_target (mu : ℕ → ℕ → ℚ)
    (draws : List (ℕ × ℕ × ℚ)) (hdr : ∀ d ∈ draws, d.1 < 200)
    (h : ℕ → ℚ) (g : ℕ) :
    regInput (buildGrnEdges mu draws) h g =
      (((buildGrnEdges mu draws).filter (fun e => e.dst = g)).map
        (fun e => h e.src * e.weight)).sum :=
  regInput_eq _ _ _ (buildGrnEdges_src_lt mu draws hdr)

/-- Claim C5, witness. Instantiation with no random edges, `h ≡ 1`, gene 0. -/
theorem regulatory_input_source_target_witness :
    regInput (buildGrnEdges (fun _ _ => 0) []) (fun _ => 1) 0 =
      (((buildGrnEdges (fun _ _ => 0) []).filter (fun e => e.dst = 0)).map
        (fun e => (fun _ => (1:ℚ)) e.src * e.weight)).sum :=
  regulatory_input_source_target (fun _ _ => 0) [] (by simp) (fun _ => 1) 0

/-- Claim C6, counterexample.  The claimed strict monotonicity in the first
argument fails on negative inputs, where `max(x, 0)` flattens the function
(`hill(-2,1,2) = hill(-1,1,2) = 0`); and at `k = 1e-8`, `n = 1` (both
positive) `hill(k,k,n) = 1/3`, which is not within any small epsilon of
0.5 (its distance exceeds 1e-6). -/
theorem hill_claim_false :
    (¬ ∀ a b : ℚ, a < b → hill a 1 2 < hill b 1 2) ∧
      1/1000000 < |hill (1/100000000) (1/100000000) 1 - 1/2| := by
  constructor
  · intro hmono
    have h := hmono (-2) (-1) (by norm_num)
    norm_num [hill, max_def] at h
  · norm_num [hill, max_def, abs]

/-- Claim C6, amended.  For `k > 0` and `n ≥ 1`: `hill(0,k,n) = 0`;
`hill(k,k,n)` is within `1e-8 / (4*k^n)` of 0.5 (so within epsilon unless
`k^n` is itself comparable to the 1e-8 regularizer); the output is
strictly increasing in the first argument over the nonnegative reals; and
the output always lies in `[0, 1)`. -/
theorem hill_properties (k : ℚ) (n : ℕ) (hk : 0 < k) (hn : 1 ≤ n) :
    hill 0 k n = 0 ∧
      |hill k k n - 1/2| ≤ (1/100000000) / (4 * k ^ n) ∧
      (∀ a b : ℚ, 0 ≤ a → a < b → hill a k n < hill b k n) ∧
      (∀ x : ℚ, 0 ≤ hill x k n ∧ hill x k n < 1) := by
  have hK : (0:ℚ) < k ^ n := pow_pos hk n
  refine ⟨?_, ?_, ?_, ?_⟩
  · unfold hill
    rw [max_self, zero_pow (by omega : n ≠ 0), zero_div]
  · have hmax : max k 0 = k := max_eq_left hk.le
    have habs : hill k k n - 1/2
        = -(1/100000000) / (2 * (2 * k ^ n + 1/100000000)) := by
      unfold hill
      rw [hmax]
      field_simp
      ring
    rw [habs, abs_div, abs_neg]
    rw [abs_of_pos (by norm_num : (0:ℚ) < 1/100000000),
      abs_of_pos (by linarith : (0:ℚ) < 2 * (2 * k ^ n + 1/100000000))]
    rw [div_le_div_iff₀ (by linarith) (by linarith)]
    nlinarith
  · intro a b ha hab
    have hXa : max a 0 = a := max_eq_left ha
    have hXb : max b 0 = b := max_eq_left (ha.trans hab.le)
    unfold hill
    rw [hXa, hXb]
    have hXY : a ^ n < b ^ n := pow_lt_pow_left₀ hab ha (by omega)
    have hpa : (0:ℚ) ≤ a ^ n := pow_nonneg ha n
    have hpb : (0:ℚ) ≤ b ^ n := pow_nonneg (ha.trans hab.le) n
    rw [div_lt_div_iff₀ (by linarith) (by linarith)]
    have key := mul_lt_mul_of_pos_right hXY
      (show (0:ℚ) < k ^ n + 1/100000000 by linarith)
    nlinarith [key]
  · intro x
    unfold hill
    have hX0 : (0:ℚ) ≤ (max x 0) ^ n := pow_nonneg (le_max_right x 0) n
    have hden : (0:ℚ) < k ^ n + (max x 0) ^ n + 1/100000000 := by linarith
    exact ⟨div_nonneg hX0 hden.le, by rw [div_lt_one hden]; linarith⟩

/-- Claim C6, amended, witness.  Instantiation at `k = 1`, `n = 2`
(the program defaults). -/
theorem hill_properties_witness :
    (0:ℚ) < 1 ∧ 1 ≤ 2 ∧
      (hill 0 1 2 = 0 ∧
        |hill 1 1 2 - 1/2| ≤ (1/100000000) / (4 * (1:ℚ) ^ 2) ∧
        (∀ a b : ℚ, 0 ≤ a → a < b → hill a 1 2 < hill b 1 2) ∧
        (∀ x : ℚ, 0 ≤ hill x 1 2 ∧ hill x 1 2 < 1)) :=
  ⟨by norm_num, by norm_num, hill_properties 1 2 (by norm_num) (by norm_num)⟩

/-- Claim C7.  For every snapshot row and every threshold (with at least
one lineage), the assigned label lies in `{0, ..., n_lineages}`, and the
label is 0 if and only if the maximum per-lineage score (mean latent value
over the lineage's TF genes) is strictly below the threshold. -/
theorem lineage_label_domain (x : ℕ → ℚ) (li : List ℕ) (nLin per : ℕ)
    (thr : ℚ) (h : 0 < nLin) :
    assignLabel x li nLin per thr ≤ nLin ∧
      (assignLabel x li nLin per thr = 0 ↔
        npMax (fun lin => lineageScore x li per lin) nLin < thr) := by
  unfold assignLabel
  by_cases hthr : npMax (fun lin => lineageScore x li per lin) nLin < thr
  · rw [if_pos hthr]
    exact ⟨Nat.zero_le _, by simp [hthr]⟩
  · rw [if_neg hthr]
    exact ⟨Nat.succ_le_of_lt (argmaxIdx_lt _ _ h), by simp [hthr]⟩

/-- Claim C7, witness.  Two lineages with TF lists `[0]` and `[1]`, all
latent values 2, threshold 1. -/
theorem lineage_label_domain_witness :
    0 < 2 ∧
      (assignLabel (fun _ => (2:ℚ)) [0, 1] 2 1 1 ≤ 2 ∧
        (assignLabel (fun _ => (2:ℚ)) [0, 1] 2 1 1 = 0 ↔
          npMax (fun lin => lineageScore (fun _ => (2:ℚ)) [0, 1] 1 lin) 2 < 1)) :=
  ⟨by norm_num, lineage_label_domain (fun _ => (2:ℚ)) [0, 1] 2 1 1 (by norm_num)⟩

/-- Claim C8, counterexample.  With `hours_per_timepoint = 2.0000005` and
`dt = 1`, the hours are not an integer multiple of `dt`, yet
`|int(h/d)*d - h| = 5e-7 ≤ 1e-6`, so the configuration check does not
raise — refuting "rejects exactly when not evenly divisible". -/
theorem config_reject_iff_divisible_false :
    ¬ configRejects (4000001/2000000) 1 ∧
      ¬ ∃ m : ℕ, (4000001/2000000 : ℚ) = m * 1 := by
  constructor
  · norm_num [configRejects, stepsPerTp, truncInt, abs]
  · rintro ⟨m, hm⟩
    rw [mul_one] at hm
    have h2 : (4000001 : ℚ) = (m : ℚ) * 2000000 := by
      field_simp at hm
      exact_mod_cast hm
    have h3 : (4000001 : ℕ) = m * 2000000 := by exact_mod_cast h2
    omega

/-- Claim C8, amended.  For `dt > 0` the check accepts (raises no error
on) every exact integer multiple `hours = m * dt`, and conversely whenever
it accepts, the hours are within 1e-6 of an integer multiple of `dt`; the
rejection predicate is exactly `|int(h/d)*d - h| > 1e-6`, a 1e-6-tolerant
version of the divisibility test. -/
theorem config_reject_characterization (h d : ℚ) (hd : 0 < d) :
    ((∃ m : ℕ, h = m * d) → ¬ configRejects h d) ∧
      (¬ configRejects h d → ∃ m : ℤ, |(m : ℚ) * d - h| ≤ 1/1000000) := by
  constructor
  · rintro ⟨m, rfl⟩
    unfold configRejects stepsPerTp truncInt
    rw [mul_div_cancel_right₀ _ (ne_of_gt hd)]
    rw [if_pos (by positivity : (0:ℚ) ≤ (m:ℚ))]
    rw [Int.floor_natCast]
    push_cast
    simp
  · intro hnr
    exact ⟨stepsPerTp h d, not_lt.mp hnr⟩

/-- Claim C8, amended, witness.  `hours = 2`, `dt = 1`. -/
theorem config_reject_characterization_witness :
    (0:ℚ) < 1 ∧
      (((∃ m : ℕ, (2:ℚ) = m * 1) → ¬ configRejects 2 1) ∧
        (¬ configRejects 2 1 → ∃ m : ℤ, |(m : ℚ) * 1 - 2| ≤ 1/1000000)) :=
  ⟨by norm_num, config_reject_characterization 2 1 (by norm_num)⟩

/-- Claim C9.  When neighbor mode is requested but `neighbor_k ≤ 0` or the
sample has at most one cell, no error is raised and the ligand
availability computed in every step equals the no-neighbor formula: the
population mean of `max(x[:, ligand_genes], 0)`. -/
theorem neighbor_degenerate_fallback (p : SimParams)
    (hmode : p.neighborRandom = true)
    (hdeg : p.neighborK ≤ 0 ∨ p.nCells ≤ 1) (x : ℕ → ℕ → ℚ) (c j : ℕ) :
    ligandAvail p x c j
      = (∑ c2 ∈ Finset.range p.nCells, max (x c2 (16 + j)) 0) / p.nCells := by
  have hnone : neighborIdx p = none := by
    unfold neighborIdx
    rw [if_neg]
    rintro ⟨-, h2, h3⟩
    rcases hdeg with hh | hh
    · omega
    · omega
  simp only [ligandAvail, hnone]
  rfl

/-- A concrete simulation input in neighbor mode with `neighbor_k = 0`,
used to witness C9. -/
def sampleSimDegenerate : SimParams where
  nCells := 1
  edges := []
  bias := fun _ => 0
  decay := fun _ => 0
  effects := fun _ _ => 0
  morphogen := fun _ => 0
  dt := 1
  xmax := 6
  hillK := 1
  hillN := 2
  neighborRandom := true
  neighborK := 0
  neighborMix := 1
  stepsPerTp := 2
  nTimepoints := 12
  initDraw := fun _ _ => 1
  noiseDraw := fun _ _ _ => 0
  neighborDraw := fun _ => []

/-- Claim C9, witness.  Neighbor mode requested with `neighbor_k = 0` on a
single-cell sample. -/
theorem neighbor_degenerate_fallback_witness :
    sampleSimDegenerate.neighborRandom = true ∧
      (sampleSimDegenerate.neighborK ≤ 0 ∨ sampleSimDegenerate.nCells ≤ 1) ∧
      ligandAvail sampleSimDegenerate (fun _ _ => 0) 0 0
        = (∑ c2 ∈ Finset.range sampleSimDegenerate.nCells,
            max ((fun _ _ => (0:ℚ)) c2 (16 + 0)) 0) / sampleSimDegenerate.nCells :=
  ⟨rfl, Or.inl (by norm_num [sampleSimDegenerate]),
    neighbor_degenerate_fallback sampleSimDegenerate rfl
      (Or.inl (by norm_num [sampleSimDegenerate])) (fun _ _ => 0) 0 0⟩

/-- Claim C10.  Ties are broken toward the lowest lineage index: if `i` is
the smallest index attaining the maximum score, the maximum is attained by
at least one other lineage too, and the maximum is at least the threshold,
then the label is `i + 1` (`np.argmax` returns the first maximum). -/
theorem lineage_tie_break (x : ℕ → ℚ) (li : List ℕ) (nLin per : ℕ) (thr : ℚ)
    (i : ℕ) (hn : 0 < nLin) (hi : i < nLin)
    (hmax : lineageScore x li per i
      = npMax (fun lin => lineageScore x li per lin) nLin)
    (hleast : ∀ j < i, lineageScore x li per j
      ≠ npMax (fun lin => lineageScore x li per lin) nLin)
    (htie : ∃ j, j < nLin ∧ j ≠ i ∧ lineageScore x li per j
      = npMax (fun lin => lineageScore x li per lin) nLin)
    (hthr : thr ≤ npMax (fun lin => lineageScore x li per lin) nLin) :
    assignLabel x li nLin per thr = i + 1 := by
  have h1 := f_argmaxIdx_eq_npMax (fun lin => lineageScore x li per lin) nLin hn
  simp only [] at h1
  have hA : argmaxIdx (fun lin => lineageScore x li per lin) nLin = i := by
    rcases lt_trichotomy (argmaxIdx (fun lin => lineageScore x li per lin) nLin) i
      with hlt | heq | hgt
    · exact absurd h1 (hleast _ hlt)
    · exact heq
    · exfalso
      have h2 := lt_f_argmaxIdx (fun lin => lineageScore x li per lin) nLin i hgt
      simp only [] at h2
      rw [h1, ← hmax] at h2
      exact lt_irrefl _ h2
  unfold assignLabel
  rw [if_neg (not_lt.mpr hthr), hA]

/-- Claim C10, witness.  Two lineages with identical scores 2 (a tie),
threshold 1: the label is lineage `0 + 1 = 1`. -/
theorem lineage_tie_break_witness :
    assignLabel (fun _ => (2:ℚ)) [0, 1] 2 1 1 = 0 + 1 :=
  lineage_tie_break (fun _ => (2:ℚ)) [0, 1] 2 1 1 0 (by norm_num) (by norm_num)
    (by norm_num [lineageScore, npMax, max_def])
    (fun j hj => absurd hj (Nat.not_lt_zero j))
    ⟨1, by norm_num, by norm_num, by norm_num [lineageScore, npMax, max_def]⟩
    (by norm_num [lineageScore, npMax, max_def])

end GRN
